import Mathlib

set_option autoImplicit false

/-!
Shallow embedding of `src/runtime/src/bank/execution_domain.rs` (the execution
domain registry of a blockchain runtime) and proofs about its operations.

Account identifiers (`solana_pubkey::Pubkey`) are opaque fixed-size keys; we
model them as natural numbers with decidable equality.  The `HashSet<Pubkey>`
of vote-domain accounts is modelled as a `Finset`, the `Vec<DomainTransition>`
of pending transitions as a `List`, and the `u64` epoch counter as `Nat`
(no arithmetic in the source can overflow: the only operation is `+ 1` on a
caller-supplied epoch).
-/

/-- Opaque account identifier (`solana_pubkey::Pubkey`). -/
abbrev Pubkey := Nat

/-- The well-known vote-program identifier `solana_vote_program::id()`,
modelled as a fixed opaque key. -/
def vote_program_id : Pubkey := 1000000

/-- `ExecutionDomain` from the source: a closed two-variant tag. -/
inductive ExecutionDomain where
  | Vote
  | User
deriving DecidableEq, Repr

/-- `DomainError` from the source.  Only `InvalidDomainTransition` is ever
constructed by the registry itself. -/
inductive DomainError where
  | CrossDomainAccess (transaction_signature : String)
      (attempted_domains : List ExecutionDomain)
  | UnauthorizedDomainAccess (account : Pubkey)
      (requested_domain actual_domain : ExecutionDomain)
  | InvalidDomainTransition (account : Pubkey) (reason : String)
deriving DecidableEq, Repr

/-- `DomainTransition` from the source. -/
structure DomainTransition where
  account : Pubkey
  from_domain : ExecutionDomain
  to_domain : ExecutionDomain
  scheduled_epoch : Nat
deriving DecidableEq, Repr

/-- `DomainRegistry` from the source: the vote-domain membership set, the
pending-transition queue, and the current epoch. -/
structure DomainRegistry where
  vote_domain_accounts : Finset Pubkey
  pending_transitions : List DomainTransition
  current_epoch : Nat
deriving DecidableEq

/-- `DomainRegistry::new`. -/
def DomainRegistry.new : DomainRegistry :=
  { vote_domain_accounts := ∅, pending_transitions := [], current_epoch := 0 }

/-- `DomainRegistry::get_account_domain`. -/
def DomainRegistry.get_account_domain (r : DomainRegistry) (pubkey : Pubkey) :
    ExecutionDomain :=
  if pubkey ∈ r.vote_domain_accounts then ExecutionDomain.Vote
  else ExecutionDomain.User

/-- `DomainRegistry::is_vote_account`. -/
def DomainRegistry.is_vote_account (r : DomainRegistry) (pubkey owner : Pubkey) :
    Bool :=
  decide (owner = vote_program_id) || decide (pubkey ∈ r.vote_domain_accounts)

/-- `DomainRegistry::add_to_vote_domain`. -/
def DomainRegistry.add_to_vote_domain (r : DomainRegistry) (pubkey : Pubkey) :
    DomainRegistry :=
  { r with vote_domain_accounts := insert pubkey r.vote_domain_accounts }

/-- `DomainRegistry::schedule_domain_transition`.  The Rust method mutates
`&mut self` and returns `Result<(), DomainError>`; we return the result
together with the post-state. -/
def DomainRegistry.schedule_domain_transition (r : DomainRegistry)
    (account : Pubkey) (fromDom toDom : ExecutionDomain) :
    Except DomainError Unit × DomainRegistry :=
  if r.pending_transitions.any (fun t => t.account == account) then
    (Except.error (DomainError.InvalidDomainTransition account
        "Transition already scheduled for this epoch"), r)
  else
    (Except.ok (), { r with pending_transitions :=
        r.pending_transitions ++
          [{ account := account, from_domain := fromDom, to_domain := toDom,
             scheduled_epoch := r.current_epoch + 1 }] })

/-- The `Vec::retain` loop of `apply_epoch_transitions`: walks the pending
queue in order; a transition whose `scheduled_epoch` equals `e` updates the
membership set (insert on `Vote`, remove on `User`) and is dropped; any other
transition is kept.  Returns the final membership set and the retained
queue. -/
def applyRetain (e : Nat) :
    Finset Pubkey → List DomainTransition → Finset Pubkey × List DomainTransition
  | s, [] => (s, [])
  | s, t :: ts =>
    if t.scheduled_epoch = e then
      match t.to_domain with
      | ExecutionDomain.Vote => applyRetain e (insert t.account s) ts
      | ExecutionDomain.User => applyRetain e (s.erase t.account) ts
    else
      let p := applyRetain e s ts
      (p.1, t :: p.2)

/-- `DomainRegistry::apply_epoch_transitions`. -/
def DomainRegistry.apply_epoch_transitions (r : DomainRegistry) (new_epoch : Nat) :
    DomainRegistry :=
  let p := applyRetain new_epoch r.vote_domain_accounts r.pending_transitions
  { vote_domain_accounts := p.1, pending_transitions := p.2,
    current_epoch := new_epoch }

/-- Invariant: at most one pending transition per account. -/
def UniquePending (r : DomainRegistry) : Prop :=
  r.pending_transitions.Pairwise (fun t1 t2 => t1.account ≠ t2.account)

/-- States reachable from `new` by the registry's mutation operations. -/
inductive Reachable : DomainRegistry → Prop where
  | new : Reachable DomainRegistry.new
  | add_to_vote_domain {r : DomainRegistry} (a : Pubkey) :
      Reachable r → Reachable (r.add_to_vote_domain a)
  | schedule_domain_transition {r : DomainRegistry} (a : Pubkey)
      (fromDom toDom : ExecutionDomain) :
      Reachable r → Reachable (r.schedule_domain_transition a fromDom toDom).2
  | apply_epoch_transitions {r : DomainRegistry} (e : Nat) :
      Reachable r → Reachable (r.apply_epoch_transitions e)

/-- The retained queue is exactly the transitions whose scheduled epoch
differs from `e`, in their original order. -/
theorem applyRetain_snd (e : Nat) (s : Finset Pubkey) (ts : List DomainTransition) :
    (applyRetain e s ts).2 = ts.filter (fun t => decide (t.scheduled_epoch ≠ e)) := by
  induction ts generalizing s with
  | nil => simp [applyRetain]
  | cons t ts ih =>
    by_cases ht : t.scheduled_epoch = e
    · cases hd : t.to_domain <;> simp [applyRetain, ht, hd, ih]
    · simp [applyRetain, ht, ih]

/-- An account none of whose pending transitions match epoch `e` keeps its
membership status across the retain loop. -/
theorem applyRetain_mem_of_not_matching (e : Nat) (a : Pubkey) :
    ∀ (s : Finset Pubkey) (ts : List DomainTransition),
      (∀ t ∈ ts, t.account = a → t.scheduled_epoch ≠ e) →
      (a ∈ (applyRetain e s ts).1 ↔ a ∈ s) := by
  intro s ts
  induction ts generalizing s with
  | nil => intro _; simp [applyRetain]
  | cons t ts ih =>
    intro h
    have hts : ∀ t' ∈ ts, t'.account = a → t'.scheduled_epoch ≠ e :=
      fun t' h1 h2 => h t' (List.mem_cons_of_mem _ h1) h2
    by_cases ht : t.scheduled_epoch = e
    · have hta : t.account ≠ a := fun hh => h t (List.mem_cons_self _ _) hh ht
      cases hd : t.to_domain
      · rw [show applyRetain e s (t :: ts) = applyRetain e (insert t.account s) ts by
          simp [applyRetain, ht, hd]]
        rw [ih _ hts]
        simp [Finset.mem_insert, Ne.symm hta]
      · rw [show applyRetain e s (t :: ts) = applyRetain e (s.erase t.account) ts by
          simp [applyRetain, ht, hd]]
        rw [ih _ hts]
        simp [Finset.mem_erase, Ne.symm hta]
    · rw [show (applyRetain e s (t :: ts)).1 = (applyRetain e s ts).1 by
        simp [applyRetain, ht]]
      exact ih _ hts

/-- If the only pending transitions for an account are a single matching
transition `tr` (with `scheduled_epoch = e`), the retain loop makes the
account a member exactly when `tr.to_domain = Vote`, and a non-member exactly
when `tr.to_domain = User`. -/
theorem applyRetain_mem_of_unique_match (e : Nat) (a : Pubkey) (tr : DomainTransition)
    (hacc : tr.account = a) (hsch : tr.scheduled_epoch = e) :
    ∀ (s : Finset Pubkey) (ts : List DomainTransition), tr ∈ ts →
      (∀ t' ∈ ts, t'.account = a → t' = tr) →
      ((tr.to_domain = ExecutionDomain.Vote → a ∈ (applyRetain e s ts).1)
        ∧ (tr.to_domain = ExecutionDomain.User → a ∉ (applyRetain e s ts).1)) := by
  intro s ts
  induction ts generalizing s with
  | nil => intro hmem _; exact absurd hmem (List.not_mem_nil _)
  | cons t ts ih =>
    intro hmem huniq
    have huniq' : ∀ t' ∈ ts, t'.account = a → t' = tr :=
      fun t' h1 h2 => huniq t' (List.mem_cons_of_mem _ h1) h2
    by_cases hta : t.account = a
    · have hteq : t = tr := huniq t (List.mem_cons_self _ _) hta
      subst hteq
      by_cases htr : t ∈ ts
      · have hrec : ∀ s' : Finset Pubkey,
            (t.to_domain = ExecutionDomain.Vote → a ∈ (applyRetain e s' ts).1)
            ∧ (t.to_domain = ExecutionDomain.User → a ∉ (applyRetain e s' ts).1) :=
          fun s' => ih s' htr huniq'
        cases hd : t.to_domain
        · rw [show applyRetain e s (t :: ts) = applyRetain e (insert t.account s) ts by
            simp [applyRetain, hsch, hd]]
          exact ⟨fun _ => (hrec _).1 hd, fun hu => ExecutionDomain.noConfusion hu⟩
        · rw [show applyRetain e s (t :: ts) = applyRetain e (s.erase t.account) ts by
            simp [applyRetain, hsch, hd]]
          exact ⟨fun hv => ExecutionDomain.noConfusion hv, fun _ => (hrec _).2 hd⟩
      · have hnone : ∀ t' ∈ ts, t'.account = a → t'.scheduled_epoch ≠ e := by
          intro t' h1 h2
          exact absurd (huniq' t' h1 h2 ▸ h1) htr
        cases hd : t.to_domain
        · rw [show applyRetain e s (t :: ts) = applyRetain e (insert t.account s) ts by
            simp [applyRetain, hsch, hd]]
          refine ⟨fun _ => ?_, fun hu => ExecutionDomain.noConfusion hu⟩
          rw [applyRetain_mem_of_not_matching e a _ ts hnone, hacc]
          exact Finset.mem_insert_self _ _
        · rw [show applyRetain e s (t :: ts) = applyRetain e (s.erase t.account) ts by
            simp [applyRetain, hsch, hd]]
          refine ⟨fun hv => ExecutionDomain.noConfusion hv, fun _ => ?_⟩
          rw [applyRetain_mem_of_not_matching e a _ ts hnone, hacc]
          exact Finset.not_mem_erase _ _
    · have htr : tr ∈ ts := by
        rcases List.mem_cons.mp hmem with h1 | h1
        · exact absurd (h1 ▸ hacc) hta
        · exact h1
      by_cases ht : t.scheduled_epoch = e
      · cases hd : t.to_domain
        · rw [show applyRetain e s (t :: ts) = applyRetain e (insert t.account s) ts by
            simp [applyRetain, ht, hd]]
          exact ih _ htr huniq'
        · rw [show applyRetain e s (t :: ts) = applyRetain e (s.erase t.account) ts by
            simp [applyRetain, ht, hd]]
          exact ih _ htr huniq'
      · rw [show (applyRetain e s (t :: ts)).1 = (applyRetain e s ts).1 by
          simp [applyRetain, ht]]
        exact ih _ htr huniq'

/-- When no pending transition matches epoch `e`, the retain loop is the
identity on both the membership set and the queue. -/
theorem applyRetain_no_match (e : Nat) :
    ∀ (s : Finset Pubkey) (ts : List DomainTransition),
      (∀ t ∈ ts, t.scheduled_epoch ≠ e) → applyRetain e s ts = (s, ts) := by
  intro s ts
  induction ts generalizing s with
  | nil => intro _; simp [applyRetain]
  | cons t ts ih =>
    intro h
    have ht : t.scheduled_epoch ≠ e := h t (List.mem_cons_self _ _)
    have hts : ∀ t' ∈ ts, t'.scheduled_epoch ≠ e :=
      fun t' h1 => h t' (List.mem_cons_of_mem _ h1)
    simp [applyRetain, ht, ih _ hts]

/-- A non-member account whose matching pending transitions all target the
User domain stays a non-member through the retain loop. -/
theorem applyRetain_not_mem (e : Nat) (a : Pubkey) :
    ∀ (s : Finset Pubkey) (ts : List DomainTransition), a ∉ s →
      (∀ t ∈ ts, t.account = a → t.scheduled_epoch = e →
        t.to_domain = ExecutionDomain.User) →
      a ∉ (applyRetain e s ts).1 := by
  intro s ts
  induction ts generalizing s with
  | nil => intro ha _; simpa [applyRetain] using ha
  | cons t ts ih =>
    intro ha h
    have hts : ∀ t' ∈ ts, t'.account = a → t'.scheduled_epoch = e →
        t'.to_domain = ExecutionDomain.User :=
      fun t' h1 => h t' (List.mem_cons_of_mem _ h1)
    by_cases ht : t.scheduled_epoch = e
    · cases hd : t.to_domain
      · have hta : t.account ≠ a := by
          intro hh
          exact absurd (h t (List.mem_cons_self _ _) hh ht) (by simp [hd])
        rw [show applyRetain e s (t :: ts) = applyRetain e (insert t.account s) ts by
          simp [applyRetain, ht, hd]]
        exact ih _ (by simp [Finset.mem_insert, Ne.symm hta, ha]) hts
      · rw [show applyRetain e s (t :: ts) = applyRetain e (s.erase t.account) ts by
          simp [applyRetain, ht, hd]]
        exact ih _ (fun hc => ha (Finset.mem_of_mem_erase hc)) hts
    · rw [show (applyRetain e s (t :: ts)).1 = (applyRetain e s ts).1 by
        simp [applyRetain, ht]]
      exact ih _ ha hts

/-- A concrete registry used to instantiate theorems: account 7 has a
transition to Vote scheduled for epoch 1, account 8 a transition to User
scheduled for epoch 3. -/
def wReg : DomainRegistry :=
  { vote_domain_accounts := ∅,
    pending_transitions :=
      [{ account := 7, from_domain := ExecutionDomain.User,
         to_domain := ExecutionDomain.Vote, scheduled_epoch := 1 },
       { account := 8, from_domain := ExecutionDomain.Vote,
         to_domain := ExecutionDomain.User, scheduled_epoch := 3 }],
    current_epoch := 0 }

/-- The epoch-1 transition of wReg, named for instantiating theorems. -/
def t7 : DomainTransition :=
  { account := 7, from_domain := ExecutionDomain.User,
    to_domain := ExecutionDomain.Vote, scheduled_epoch := 1 }

/-- Decidable equality for scheduling results, so they can be evaluated at
concrete inputs. -/
instance : DecidableEq (Except DomainError Unit) := fun a b =>
  match a, b with
  | Except.ok (), Except.ok () => isTrue rfl
  | Except.error x, Except.error y =>
    if h : x = y then isTrue (by rw [h])
    else isFalse (fun hc => h (by injection hc))
  | Except.ok (), Except.error _ => isFalse (fun hc => Except.noConfusion hc)
  | Except.error _, Except.ok () => isFalse (fun hc => Except.noConfusion hc)

/-- A concrete registry holding a pending transition for account 5,
obtained by scheduling from the fresh registry. -/
def c2Reg : DomainRegistry :=
  (DomainRegistry.new.schedule_domain_transition 5
    ExecutionDomain.User ExecutionDomain.Vote).2

/-- A concrete registry at epoch 1 with an empty membership set and one
pending transition moving account 9 to the User domain at epoch 2. -/
def c10Reg : DomainRegistry :=
  { vote_domain_accounts := ∅,
    pending_transitions :=
      [{ account := 9, from_domain := ExecutionDomain.Vote,
         to_domain := ExecutionDomain.User, scheduled_epoch := 2 }],
    current_epoch := 1 }

/-- Claim C1: apply_epoch_transitions(new_epoch) sets the current epoch to
new_epoch; it drops from the pending queue exactly the transitions whose
scheduled_epoch equals new_epoch, keeping all others in their original
order; a dropped transition inserts its account into the vote membership
set when its target domain is Vote and removes it when User (stated for an
account whose pending transition is unique); and an account none of whose
pending transitions match new_epoch — including one whose scheduled epoch
was skipped past — keeps its membership status, so its domain is
unaffected. -/
theorem C1_apply_epoch_transitions_correct (r : DomainRegistry) (e : Nat) :
    (r.apply_epoch_transitions e).current_epoch = e
    ∧ (r.apply_epoch_transitions e).pending_transitions
        = r.pending_transitions.filter (fun t => decide (t.scheduled_epoch ≠ e))
    ∧ (∀ t ∈ r.pending_transitions, t.scheduled_epoch = e →
        (∀ t' ∈ r.pending_transitions, t'.account = t.account → t' = t) →
        (t.to_domain = ExecutionDomain.Vote →
            t.account ∈ (r.apply_epoch_transitions e).vote_domain_accounts)
        ∧ (t.to_domain = ExecutionDomain.User →
            t.account ∉ (r.apply_epoch_transitions e).vote_domain_accounts))
    ∧ (∀ a : Pubkey,
        (∀ t ∈ r.pending_transitions, t.account = a → t.scheduled_epoch ≠ e) →
        ((a ∈ (r.apply_epoch_transitions e).vote_domain_accounts ↔
            a ∈ r.vote_domain_accounts)
         ∧ (r.apply_epoch_transitions e).get_account_domain a
             = r.get_account_domain a)) := by
  refine ⟨rfl, applyRetain_snd e r.vote_domain_accounts r.pending_transitions,
    ?_, ?_⟩
  · intro t ht hsch huniq
    exact applyRetain_mem_of_unique_match e t.account t rfl hsch
      r.vote_domain_accounts r.pending_transitions ht huniq
  · intro a h
    have hm : a ∈ (r.apply_epoch_transitions e).vote_domain_accounts ↔
        a ∈ r.vote_domain_accounts :=
      applyRetain_mem_of_not_matching e a r.vote_domain_accounts
        r.pending_transitions h
    refine ⟨hm, ?_⟩
    simp only [DomainRegistry.get_account_domain, hm]

/-- Claim C1 witness: at a concrete registry with transitions scheduled for
epochs 1 and 3, applying epoch 1 sets the epoch, applies the matching
transition for account 7, and leaves account 8 unaffected. -/
theorem C1_witness :
    (wReg.apply_epoch_transitions 1).current_epoch = 1
    ∧ (7 : Pubkey) ∈ (wReg.apply_epoch_transitions 1).vote_domain_accounts
    ∧ (((8 : Pubkey) ∈ (wReg.apply_epoch_transitions 1).vote_domain_accounts) ↔
        (8 : Pubkey) ∈ wReg.vote_domain_accounts) := by
  obtain ⟨h1, _, h3, h4⟩ := C1_apply_epoch_transitions_correct wReg 1
  have h7 := h3 t7 (by decide) rfl (by decide)
  exact ⟨h1, h7.1 rfl, (h4 8 (by decide)).1⟩

/-- Claim C2 counterexample: with a pending transition for account 5 in the
queue, scheduling again does fail with InvalidDomainTransition, but the
error's reason string is "Transition already scheduled for this epoch", not
the claimed "already scheduled for this epoch". -/
theorem C2_counterexample :
    (∃ t ∈ c2Reg.pending_transitions, t.account = 5)
    ∧ (c2Reg.schedule_domain_transition 5 ExecutionDomain.User
          ExecutionDomain.Vote).1
        ≠ Except.error (DomainError.InvalidDomainTransition 5
            "already scheduled for this epoch")
    ∧ (c2Reg.schedule_domain_transition 5 ExecutionDomain.User
          ExecutionDomain.Vote).1
        = Except.error (DomainError.InvalidDomainTransition 5
            "Transition already scheduled for this epoch") := by
  decide

/-- Claim C2 amended: schedule_domain_transition fails — returning
InvalidDomainTransition with reason "Transition already scheduled for this
epoch" — if and only if a pending transition for the account already exists;
on that error the registry is returned unchanged.  (In this embedding every
other registry operation is a total function with no error result, so
scheduling is the only fallible operation.) -/
theorem C2_schedule_error_iff (r : DomainRegistry) (a : Pubkey)
    (fromDom toDom : ExecutionDomain) :
    ((r.schedule_domain_transition a fromDom toDom).1
        = Except.error (DomainError.InvalidDomainTransition a
            "Transition already scheduled for this epoch")
      ↔ ∃ t ∈ r.pending_transitions, t.account = a)
    ∧ ((∃ t ∈ r.pending_transitions, t.account = a) →
        (r.schedule_domain_transition a fromDom toDom).2 = r) := by
  unfold DomainRegistry.schedule_domain_transition
  by_cases hany : (r.pending_transitions.any fun t => t.account == a) = true
  · have hex : ∃ t ∈ r.pending_transitions, t.account = a := by simpa using hany
    simp [hany, hex]
  · have hex : ¬ ∃ t ∈ r.pending_transitions, t.account = a := by simpa using hany
    simp [hany, hex]

/-- Claim C2 witness: the amended theorem at the concrete registry holding a
pending transition for account 5. -/
theorem C2_witness :
    (∃ t ∈ c2Reg.pending_transitions, t.account = 5)
    ∧ (c2Reg.schedule_domain_transition 5 ExecutionDomain.Vote
        ExecutionDomain.User).2 = c2Reg := by
  have hex : ∃ t ∈ c2Reg.pending_transitions, t.account = 5 := by decide
  exact ⟨hex, (C2_schedule_error_iff c2Reg 5 ExecutionDomain.Vote
    ExecutionDomain.User).2 hex⟩

/-- Claim C3: with no pending transition for the account, scheduling
succeeds and appends exactly one transition that records the supplied
domains verbatim (unvalidated) with scheduled_epoch = current_epoch + 1;
the membership set and the current epoch are unchanged. -/
theorem C3_schedule_success (r : DomainRegistry) (a : Pubkey)
    (fromDom toDom : ExecutionDomain)
    (h : ∀ t ∈ r.pending_transitions, t.account ≠ a) :
    (r.schedule_domain_transition a fromDom toDom).1 = Except.ok ()
    ∧ (r.schedule_domain_transition a fromDom toDom).2.pending_transitions
        = r.pending_transitions ++
            [{ account := a, from_domain := fromDom, to_domain := toDom,
               scheduled_epoch := r.current_epoch + 1 }]
    ∧ (r.schedule_domain_transition a fromDom toDom).2.vote_domain_accounts
        = r.vote_domain_accounts
    ∧ (r.schedule_domain_transition a fromDom toDom).2.current_epoch
        = r.current_epoch := by
  have hany : (r.pending_transitions.any fun t => t.account == a) = false := by
    simp only [List.any_eq_false, beq_iff_eq]
    exact h
  simp [DomainRegistry.schedule_domain_transition, hany]

/-- Claim C3 witness: scheduling account 5 from the fresh registry appends
the single expected transition with scheduled epoch 1. -/
theorem C3_witness :
    (DomainRegistry.new.schedule_domain_transition 5
        ExecutionDomain.User ExecutionDomain.Vote).1 = Except.ok ()
    ∧ (DomainRegistry.new.schedule_domain_transition 5
        ExecutionDomain.User ExecutionDomain.Vote).2.pending_transitions
        = [{ account := 5, from_domain := ExecutionDomain.User,
             to_domain := ExecutionDomain.Vote, scheduled_epoch := 1 }] := by
  have h := C3_schedule_success DomainRegistry.new 5 ExecutionDomain.User
    ExecutionDomain.Vote (by decide)
  exact ⟨h.1, h.2.1.trans rfl⟩

/-- Claim C4: every registry state reachable from new by add_to_vote_domain,
schedule_domain_transition, and apply_epoch_transitions has at most one
pending transition per account. -/
theorem C4_unique_pending_invariant (r : DomainRegistry) (h : Reachable r) :
    UniquePending r := by
  induction h with
  | new => exact List.Pairwise.nil
  | add_to_vote_domain a hr ih => exact ih
  | @schedule_domain_transition r a fromDom toDom hr ih =>
    unfold UniquePending DomainRegistry.schedule_domain_transition
    by_cases hany : (r.pending_transitions.any fun t => t.account == a) = true
    · rw [if_pos hany]
      exact ih
    · have hne : ∀ t ∈ r.pending_transitions, t.account ≠ a := by
        simpa using hany
      rw [if_neg hany]
      show List.Pairwise _ (r.pending_transitions ++ [_])
      refine List.pairwise_append.mpr ⟨ih, List.pairwise_singleton _ _, ?_⟩
      intro t1 ht1 t2 ht2
      simp only [List.mem_singleton] at ht2
      subst ht2
      exact hne t1 ht1
  | @apply_epoch_transitions r e hr ih =>
    have hp : (r.apply_epoch_transitions e).pending_transitions
        = r.pending_transitions.filter (fun t => decide (t.scheduled_epoch ≠ e)) :=
      applyRetain_snd e r.vote_domain_accounts r.pending_transitions
    unfold UniquePending
    rw [hp]
    exact List.Pairwise.sublist (List.filter_sublist _) ih

/-- Claim C4 witness: the invariant at a concrete reachable state. -/
theorem C4_witness :
    UniquePending (DomainRegistry.new.schedule_domain_transition 5
      ExecutionDomain.User ExecutionDomain.Vote).2 :=
  C4_unique_pending_invariant _
    (Reachable.schedule_domain_transition 5 ExecutionDomain.User
      ExecutionDomain.Vote Reachable.new)

/-- Claim C5 counterexample: from the fresh registry, apply_epoch_transitions 1
followed by apply_epoch_transitions 0 strictly decreases the current epoch,
so the epoch is not monotonically non-decreasing under arbitrary arguments. -/
theorem C5_counterexample :
    ((DomainRegistry.new.apply_epoch_transitions 1).apply_epoch_transitions
        0).current_epoch
      < (DomainRegistry.new.apply_epoch_transitions 1).current_epoch := by
  decide

/-- Claim C5 amended: add_to_vote_domain and schedule_domain_transition never
change the current epoch (and the lookups are read-only), while
apply_epoch_transitions sets the epoch to its argument unconditionally;
hence the epoch is non-decreasing across apply_epoch_transitions exactly
when the supplied new_epoch is at least the current epoch. -/
theorem C5_epoch_behaviour (r : DomainRegistry) (a : Pubkey)
    (fromDom toDom : ExecutionDomain) (e : Nat) :
    (r.add_to_vote_domain a).current_epoch = r.current_epoch
    ∧ (r.schedule_domain_transition a fromDom toDom).2.current_epoch
        = r.current_epoch
    ∧ (r.apply_epoch_transitions e).current_epoch = e
    ∧ (r.current_epoch ≤ e →
        r.current_epoch ≤ (r.apply_epoch_transitions e).current_epoch) := by
  refine ⟨rfl, ?_, rfl, fun h => h⟩
  unfold DomainRegistry.schedule_domain_transition
  by_cases hany : (r.pending_transitions.any fun t => t.account == a) = true
  · rw [if_pos hany]
  · rw [if_neg hany]

/-- Claim C5 witness: the amended theorem at the fresh registry and epoch 3. -/
theorem C5_witness :
    DomainRegistry.new.current_epoch ≤ 3
    ∧ DomainRegistry.new.current_epoch
        ≤ (DomainRegistry.new.apply_epoch_transitions 3).current_epoch := by
  have h := C5_epoch_behaviour DomainRegistry.new 5 ExecutionDomain.User
    ExecutionDomain.Vote 3
  exact ⟨by decide, h.2.2.2 (by decide)⟩

/-- Claim C6: get_account_domain returns Vote exactly when the account is in
the vote membership set and User exactly when it is not; it is a pure
function of the registry state. -/
theorem C6_get_account_domain_correct (r : DomainRegistry) (a : Pubkey) :
    (r.get_account_domain a = ExecutionDomain.Vote ↔
      a ∈ r.vote_domain_accounts)
    ∧ (r.get_account_domain a = ExecutionDomain.User ↔
      a ∉ r.vote_domain_accounts) := by
  unfold DomainRegistry.get_account_domain
  by_cases h : a ∈ r.vote_domain_accounts <;> simp [h]

/-- Claim C6 witness: the classifier at a member and at a non-member. -/
theorem C6_witness :
    ((DomainRegistry.new.add_to_vote_domain 7).get_account_domain 7
        = ExecutionDomain.Vote ↔
      (7 : Pubkey) ∈ (DomainRegistry.new.add_to_vote_domain 7).vote_domain_accounts)
    ∧ (DomainRegistry.new.get_account_domain 7 = ExecutionDomain.User ↔
        (7 : Pubkey) ∉ DomainRegistry.new.vote_domain_accounts) :=
  ⟨(C6_get_account_domain_correct (DomainRegistry.new.add_to_vote_domain 7) 7).1,
   (C6_get_account_domain_correct DomainRegistry.new 7).2⟩

/-- Claim C7: is_vote_account is true exactly when the owner is the
vote-program identifier or the account is in the vote membership set; with
owner = vote_program_id it is true regardless of membership. -/
theorem C7_is_vote_account_correct (r : DomainRegistry) (a owner : Pubkey) :
    (r.is_vote_account a owner = true ↔
      (owner = vote_program_id ∨ a ∈ r.vote_domain_accounts))
    ∧ (owner = vote_program_id → r.is_vote_account a owner = true) := by
  unfold DomainRegistry.is_vote_account
  constructor
  · simp
  · intro h
    simp [h]

/-- Claim C7 witness: owner = vote_program_id forces true even though the
account is not a member of the fresh registry's vote set. -/
theorem C7_witness :
    DomainRegistry.new.is_vote_account 7 vote_program_id = true
    ∧ (7 : Pubkey) ∉ DomainRegistry.new.vote_domain_accounts :=
  ⟨(C7_is_vote_account_correct DomainRegistry.new 7 vote_program_id).2 rfl,
   by decide⟩

/-- Claim C8: add_to_vote_domain makes the account's domain Vote immediately
(with no epoch dependency) and leaves the pending-transition queue and the
current epoch unchanged; in this embedding it is a total function, so it
never fails. -/
theorem C8_add_to_vote_domain_correct (r : DomainRegistry) (a : Pubkey) :
    (r.add_to_vote_domain a).get_account_domain a = ExecutionDomain.Vote
    ∧ (r.add_to_vote_domain a).pending_transitions = r.pending_transitions
    ∧ (r.add_to_vote_domain a).current_epoch = r.current_epoch := by
  refine ⟨?_, rfl, rfl⟩
  simp [DomainRegistry.add_to_vote_domain, DomainRegistry.get_account_domain]

/-- Claim C9: apply_epoch_transitions is idempotent at a fixed epoch: a
second call with the same epoch is a no-op, because no pending transition
scheduled for that epoch survives the first call. -/
theorem C9_apply_epoch_transitions_idempotent (r : DomainRegistry) (e : Nat) :
    (r.apply_epoch_transitions e).apply_epoch_transitions e
      = r.apply_epoch_transitions e := by
  have hnm : ∀ t ∈ (r.apply_epoch_transitions e).pending_transitions,
      t.scheduled_epoch ≠ e := by
    intro t ht
    have hp : (r.apply_epoch_transitions e).pending_transitions
        = r.pending_transitions.filter (fun t => decide (t.scheduled_epoch ≠ e)) :=
      applyRetain_snd e r.vote_domain_accounts r.pending_transitions
    rw [hp] at ht
    simpa using (List.mem_filter.mp ht).2
  have key := applyRetain_no_match e
    (r.apply_epoch_transitions e).vote_domain_accounts
    (r.apply_epoch_transitions e).pending_transitions hnm
  have hep : (r.apply_epoch_transitions e).current_epoch = e := rfl
  calc (r.apply_epoch_transitions e).apply_epoch_transitions e
      = { vote_domain_accounts :=
            (applyRetain e (r.apply_epoch_transitions e).vote_domain_accounts
              (r.apply_epoch_transitions e).pending_transitions).1,
          pending_transitions :=
            (applyRetain e (r.apply_epoch_transitions e).vote_domain_accounts
              (r.apply_epoch_transitions e).pending_transitions).2,
          current_epoch := e } := rfl
    _ = { vote_domain_accounts := (r.apply_epoch_transitions e).vote_domain_accounts,
          pending_transitions := (r.apply_epoch_transitions e).pending_transitions,
          current_epoch := e } := by rw [key]
    _ = r.apply_epoch_transitions e := hep ▸ rfl

/-- Claim C10: apply_epoch_transitions is total — in this embedding it is a
plain function into registries with no error result.  A matching pending
transition to the User domain for an account that is not in the membership
set is a silent no-op on membership: the account stays out of the set and
its domain stays User, while every matching transition is still removed
from the pending queue. -/
theorem C10_apply_user_transition_silent (r : DomainRegistry) (e : Nat)
    (a : Pubkey) (ha : a ∉ r.vote_domain_accounts)
    (h : ∀ t ∈ r.pending_transitions, t.account = a → t.scheduled_epoch = e →
      t.to_domain = ExecutionDomain.User) :
    a ∉ (r.apply_epoch_transitions e).vote_domain_accounts
    ∧ (r.apply_epoch_transitions e).get_account_domain a = ExecutionDomain.User
    ∧ ∀ t ∈ (r.apply_epoch_transitions e).pending_transitions,
        t.scheduled_epoch ≠ e := by
  have h1 : a ∉ (r.apply_epoch_transitions e).vote_domain_accounts :=
    applyRetain_not_mem e a r.vote_domain_accounts r.pending_transitions ha h
  refine ⟨h1, ?_, ?_⟩
  · simp only [DomainRegistry.get_account_domain, if_neg h1]
  · intro t ht
    have hp : (r.apply_epoch_transitions e).pending_transitions
        = r.pending_transitions.filter (fun t => decide (t.scheduled_epoch ≠ e)) :=
      applyRetain_snd e r.vote_domain_accounts r.pending_transitions
    rw [hp] at ht
    simpa using (List.mem_filter.mp ht).2

/-- Claim C10 witness: applying epoch 2 to a registry whose only pending
transition moves non-member account 9 to User leaves 9 out of the set and
its domain User. -/
theorem C10_witness :
    (9 : Pubkey) ∉ (c10Reg.apply_epoch_transitions 2).vote_domain_accounts
    ∧ (c10Reg.apply_epoch_transitions 2).get_account_domain 9
        = ExecutionDomain.User := by
  have h := C10_apply_user_transition_silent c10Reg 2 9 (by decide) (by decide)
  exact ⟨h.1, h.2.1⟩
